import Mathlib

/-!
# custom_shell.cpp: redirection, pipelines, job table, dispatcher

A shallow embedding of the command-execution engine of `custom_shell.cpp`.

* C++ `vector<string>` is `List String`; `size_t` arithmetic is `Nat` reduced
  modulo `SIZE_MOD = 2 ^ 64`; the `int` job counter is an `Int` wrapped to 32 bits.
* Answers of the operating system (`open`, `pipe`, `fork`, `kill`, `waitpid`,
  `execvp`) are fields of an environment record `Env`; theorems quantify over it.
* `fork` returns twice.  One function describes both processes: when the
  environment answers `0` the function follows the child branch of the source and
  ends in a `ChildRun` (the `execvp` call made and how it ends).
* Loops whose termination is not structural take fuel and return `none` when it
  runs out.
* Text written to the terminal is not modelled.
-/

namespace CustomShell

/-! ## Redirection -/

/-- Modulus of `size_t` arithmetic. -/
def SIZE_MOD : Nat := 2 ^ 64

/-- The two standard streams the shell rebinds. -/
inductive Stream
  | stdin
  | stdout
  deriving DecidableEq

/-- The two ways `handleRedirection` gives up: a redirection token that is the last
token (`printError "Syntax error: ... requires a filename"`), or a failing `open`
(`perror "open"`). -/
inductive RedirError
  | missingFilename
  | openFailed
  deriving DecidableEq

/-- What `handleRedirection` leaves behind: the argument vector (it is edited in
place), the `dup2` calls made in order, and the error it printed, if any.  The C++
function returns `void`: `error` is visible on the terminal only, not to the
caller. -/
structure RedirResult where
  args : List String
  bindings : List (Stream × String)
  error : Option RedirError
  deriving DecidableEq

/-- The call `args.erase(args.begin() + i, args.begin() + i + 2)`. -/
def eraseTwo (args : List String) (i : Nat) : List String :=
  args.take i ++ args.drop (i + 2)

/-- The `for` loop of `handleRedirection`, one iteration per unit of fuel.
`openOk k path w` tells whether the `k`-th `open` of this process, on `path`, for
writing (`w = true`, flags `O_WRONLY | O_CREAT | O_TRUNC`) or reading, returns a
descriptor.  After an erase the source runs `--i` and the loop header runs `++i`,
both on `size_t`. -/
def handleRedirectionLoop (openOk : Nat → String → Bool → Bool) :
    Nat → List String → Nat → List (Stream × String) → Option RedirResult
  | 0, _, _, _ => none
  | fuel + 1, args, i, binds =>
    if i < args.length then
      if args.getD i "" = ">" then
        if (i + 1) % SIZE_MOD ≥ args.length then
          some ⟨args, binds, some RedirError.missingFilename⟩
        else if openOk binds.length (args.getD ((i + 1) % SIZE_MOD) "") true then
          handleRedirectionLoop openOk fuel (eraseTwo args i)
            (((i + SIZE_MOD - 1) % SIZE_MOD + 1) % SIZE_MOD)
            (binds ++ [(Stream.stdout, args.getD ((i + 1) % SIZE_MOD) "")])
        else
          some ⟨args, binds, some RedirError.openFailed⟩
      else if args.getD i "" = "<" then
        if (i + 1) % SIZE_MOD ≥ args.length then
          some ⟨args, binds, some RedirError.missingFilename⟩
        else if openOk binds.length (args.getD ((i + 1) % SIZE_MOD) "") false then
          handleRedirectionLoop openOk fuel (eraseTwo args i)
            (((i + SIZE_MOD - 1) % SIZE_MOD + 1) % SIZE_MOD)
            (binds ++ [(Stream.stdin, args.getD ((i + 1) % SIZE_MOD) "")])
        else
          some ⟨args, binds, some RedirError.openFailed⟩
      else
        handleRedirectionLoop openOk fuel args ((i + 1) % SIZE_MOD) binds
    else
      some ⟨args, binds, none⟩

/-- The function `handleRedirection(args)`: the loop from `i = 0`.  Every iteration
either advances `i` or shortens `args`, so `args.length + 1` iterations are
enough. -/
def handleRedirection (openOk : Nat → String → Bool → Bool) (args : List String) :
    Option RedirResult :=
  handleRedirectionLoop openOk (args.length + 1) args 0 []

/-- Whether a token is one of the two redirection tokens. -/
def isRedirToken (t : String) : Bool := t = ">" ∨ t = "<"

/-- Spec side of the redirection resolver: "each `<` or `>` met by the
left-to-right scan is followed by a filename token". -/
def redirWellFormed : List String → Bool
  | [] => true
  | [t] => !isRedirToken t
  | t :: u :: rest =>
    if isRedirToken t then redirWellFormed rest else redirWellFormed (u :: rest)

/-- Spec side of the redirection resolver: the segment with every scanned
redirection token and the token following it removed. -/
def stripRedirections : List String → List String
  | [] => []
  | [t] => if isRedirToken t then [] else [t]
  | t :: u :: rest =>
    if isRedirToken t then stripRedirections rest else t :: stripRedirections (u :: rest)

/-- Spec side of the redirection resolver: the stream bindings of a segment, in
scan order: `>` binds standard output and `<` standard input to the token that
follows. -/
def redirBindings : List String → List (Stream × String)
  | [] => []
  | [_] => []
  | t :: u :: rest =>
    if t = ">" then (Stream.stdout, u) :: redirBindings rest
    else if t = "<" then (Stream.stdin, u) :: redirBindings rest
    else redirBindings (u :: rest)

/-! ## Tokenizer -/

/-- The characters `operator>>` skips (`isspace` in the "C" locale). -/
def isspace (c : Char) : Bool :=
  c = ' ' ∨ c = '\t' ∨ c = '\n' ∨ c = Char.ofNat 11 ∨ c = Char.ofNat 12 ∨ c = '\r'

/-- The loop `while (iss >> tok) tokens.push_back(tok)`: `cur` holds the characters
of the token being read, last read first. -/
def parseInputLoop : List Char → List Char → List String
  | [], cur => if cur = [] then [] else [String.mk cur.reverse]
  | c :: rest, cur =>
    if isspace c then
      if cur = [] then parseInputLoop rest []
      else String.mk cur.reverse :: parseInputLoop rest []
    else parseInputLoop rest (c :: cur)

/-- The function `parseInput(input)`. -/
def parseInput (input : String) : List String :=
  parseInputLoop input.data []

/-! ## Child processes and system calls -/

/-- How the call `execvp(argv[0], argv.data())` of a forked child ends: the program
image is replaced; or `execvp` returns and the child calls `exit(status)`; or,
when `argv[0]` is the terminating null pointer, `execvp` dereferences the null
file name and the child is killed by a signal, reaching neither. -/
inductive ChildEnd
  | replaced
  | exited (status : Nat)
  | killed
  deriving DecidableEq

/-- What a forked child does: the result of `handleRedirection`, the call
`execvp(argv[0], argv.data())` it makes (`file = none` when `argv[0]` is the
terminating null pointer), and how that call ends. -/
structure ChildRun where
  redir : RedirResult
  file : Option String
  argv : List String
  ending : ChildEnd
  deriving DecidableEq

/-- The statements `execvp(argv[0], argv.data()); perror(...); exit(status);` at
the end of a child, for the argument list `args` left by `handleRedirection`.
`execOk file argv` tells whether `execvp` replaces the program image. -/
def childExec (execOk : String → List String → Bool) (status : Nat) (args : List String) :
    ChildEnd :=
  match args with
  | [] => ChildEnd.killed
  | file :: _ => if execOk file args then ChildEnd.replaced else ChildEnd.exited status

/-- System calls of `executePipeline`, in program order.  Pipe descriptors are
named by their slot in the array `fds`. -/
inductive SysEvent
  | pipe (slot : Nat) (res : Int)
  | fork (res : Int)
  | dup2 (slot : Nat) (target : Stream)
  | close (slot : Nat)
  | wait
  deriving DecidableEq

/-- Answers of the operating system to one dispatched line. -/
structure Env where
  /-- Whether the `k`-th `open` in a child succeeds (path, for writing). -/
  openOk : Nat → String → Bool → Bool
  /-- Whether `execvp(file, argv)` replaces the program image. -/
  execOk : String → List String → Bool
  /-- Return value of `fork()` in `executeCommand`. -/
  forkRes : Int
  /-- Return value of `kill(pid, SIGCONT)`. -/
  killRes : Int
  /-- Return value of `waitpid(pid, &status, 0)`; `-1` when it fails (`EINTR`, `ECHILD`). -/
  waitpidRes : Int
  /-- Return value of the `i`-th `pipe()` in `executePipeline`. -/
  pipeRes : Nat → Int
  /-- Return value of the `i`-th `fork()` in `executePipeline`. -/
  pipeForkRes : Nat → Int

/-- The loop `for (j = 0; j < 2*(n-1); ++j) close(fds[j])`. -/
def closeAll (n : Nat) : List SysEvent :=
  (List.range (2 * (n - 1))).map SysEvent.close

/-- The first loop of `executePipeline`: `k` pipes still to allocate, `i` the loop
index.  Returns the calls made and whether all of them succeeded. -/
def pipeLoop (pipeRes : Nat → Int) : Nat → Nat → List SysEvent → List SysEvent × Bool
  | 0, _, ev => (ev, true)
  | k + 1, i, ev =>
    if pipeRes i = -1 then (ev ++ [SysEvent.pipe (i * 2) (pipeRes i)], false)
    else pipeLoop pipeRes k (i + 1) (ev ++ [SysEvent.pipe (i * 2) (pipeRes i)])

/-- How `executePipeline` ends: in the shell, returning after the listed calls, or
as the forked child of segment `i`. -/
inductive PipeOutcome
  | parent (events : List SysEvent)
  | child (i : Nat) (events : List SysEvent) (run : ChildRun)
  deriving DecidableEq

/-- The branch `pid == 0` of `executePipeline` for segment `i` of `n`. -/
def pipelineChild (env : Env) (commands : List (List String)) (n i : Nat)
    (ev : List SysEvent) : Option PipeOutcome :=
  let ev1 := if i ≠ 0 then ev ++ [SysEvent.dup2 ((i - 1) * 2) Stream.stdin] else ev
  let ev2 := if i ≠ n - 1 then ev1 ++ [SysEvent.dup2 (i * 2 + 1) Stream.stdout] else ev1
  let ev3 := ev2 ++ closeAll n
  match handleRedirection env.openOk (commands.getD i []) with
  | none => none
  | some r =>
    some (PipeOutcome.child i ev3
      ⟨r, r.args.head?, r.args, childExec env.execOk 1 r.args⟩)

/-- The second loop of `executePipeline` followed by the parent's close and wait
loops: `k` segments still to spawn, `i` the loop index. -/
def forkLoop (env : Env) (commands : List (List String)) (n : Nat) :
    Nat → Nat → List SysEvent → Option PipeOutcome
  | 0, _, ev => some (PipeOutcome.parent (ev ++ closeAll n ++ List.replicate n SysEvent.wait))
  | k + 1, i, ev =>
    if env.pipeForkRes i = 0 then
      pipelineChild env commands n i (ev ++ [SysEvent.fork 0])
    else if env.pipeForkRes i < 0 then
      some (PipeOutcome.parent (ev ++ [SysEvent.fork (env.pipeForkRes i)] ++ closeAll n))
    else forkLoop env commands n k (i + 1) (ev ++ [SysEvent.fork (env.pipeForkRes i)])

/-- The function `executePipeline(commands)`. -/
def executePipeline (env : Env) (commands : List (List String)) : Option PipeOutcome :=
  let n := commands.length
  if n = 0 then some (PipeOutcome.parent [])
  else
    match pipeLoop env.pipeRes (n - 1) 0 [] with
    | (ev, false) => some (PipeOutcome.parent ev)
    | (ev, true) => forkLoop env commands n n 0 ev

/-- Number of pipes the listed calls allocated. -/
def pipesAllocated (ev : List SysEvent) : Nat :=
  (ev.filter fun e => match e with
    | SysEvent.pipe _ r => decide (r ≠ -1)
    | _ => false).length

/-- Number of child processes the listed calls created. -/
def spawned (ev : List SysEvent) : Nat :=
  (ev.filter fun e => match e with
    | SysEvent.fork r => decide (0 < r)
    | _ => false).length

/-- The slots of `fds` closed by the listed calls, in order. -/
def closedSlots (ev : List SysEvent) : List Nat :=
  ev.filterMap fun e => match e with
    | SysEvent.close slot => some slot
    | _ => none

/-- Number of `wait(NULL)` calls among the listed calls. -/
def reaped (ev : List SysEvent) : Nat :=
  (ev.filter fun e => match e with
    | SysEvent.wait => true
    | _ => false).length

/-! ## Job table and shell state -/

/-- The C++ `struct Job`. -/
structure Job where
  pid : Int
  command : String
  running : Bool
  deriving DecidableEq

/-- The four globals of the shell.  `jobs` is the `std::map<int, Job>` as a list of
entries in ascending key order. -/
structure ShellState where
  historyList : List String
  jobs : List (Int × Job)
  jobCounter : Int
  lastCommand : String
  deriving DecidableEq

/-- The globals as initialised at program start. -/
def initialState : ShellState := ⟨[], [], 1, ""⟩

/-- Lookup `jobs.find(id)`. -/
def jobsFind (jobs : List (Int × Job)) (id : Int) : Option Job :=
  match jobs with
  | [] => none
  | (k, j) :: rest => if k = id then some j else jobsFind rest id

/-- Removal `jobs.erase(it)` of the entry with key `id`. -/
def jobsErase (jobs : List (Int × Job)) (id : Int) : List (Int × Job) :=
  jobs.filter fun e => decide (e.1 ≠ id)

/-- Assignment `jobs[k] = j`: replaces the entry with key `k` or inserts a new one
at its place in key order. -/
def jobsAssign : List (Int × Job) → Int → Job → List (Int × Job)
  | [], k, j => [(k, j)]
  | (k1, j1) :: rest, k, j =>
    if k < k1 then (k, j) :: (k1, j1) :: rest
    else if k = k1 then (k, j) :: rest
    else (k1, j1) :: jobsAssign rest k j

/-- The assignment `it->second.running = true` on the entry with key `id`. -/
def jobsSetRunning (jobs : List (Int × Job)) (id : Int) : List (Int × Job) :=
  jobs.map fun e => if e.1 = id then (e.1, { e.2 with running := true }) else e

/-- Keys of the job table. -/
def jobKeys (jobs : List (Int × Job)) : List Int := jobs.map Prod.fst

/-- The value of an `int` after an arithmetic step, in 32-bit two's complement. -/
def wrapInt32 (x : Int) : Int := (x + 2 ^ 31) % 2 ^ 32 - 2 ^ 31

/-- The function `bringToForeground(id)`.  The results of `kill` and `waitpid` are
not looked at by the source (`kill` failing only prints). -/
def bringToForeground (env : Env) (st : ShellState) (id : Int) : ShellState :=
  match jobsFind st.jobs id with
  | none => st
  | some _ =>
    let _killed := env.killRes
    let _waited := env.waitpidRes
    { st with jobs := jobsErase st.jobs id }

/-- The function `sendToBackground(id)`. -/
def sendToBackground (env : Env) (st : ShellState) (id : Int) : ShellState :=
  match jobsFind st.jobs id with
  | none => st
  | some _ =>
    if env.killRes < 0 then st
    else { st with jobs := jobsSetRunning st.jobs id }

/-- The library call `std::stoi(s)`: leading white space, an optional sign, decimal
digits; `none` when it throws (`invalid_argument` without a digit, `out_of_range`
outside `int`). -/
def stoi (s : String) : Option Int :=
  let cs := s.data.dropWhile isspace
  let neg := cs.head? = some '-'
  let ds := if cs.head? = some '-' ∨ cs.head? = some '+' then cs.tail else cs
  let digits := ds.takeWhile Char.isDigit
  if digits = [] then none
  else
    let v : Int := ((digits.foldl (fun a c => 10 * a + (c.toNat - 48)) 0 : Nat) : Int)
    let r : Int := if neg then -v else v
    if r < -(2 ^ 31) ∨ 2 ^ 31 - 1 < r then none else some r

/-- How a call of `executeCommand`, or one turn of the main loop, ends. -/
inductive Outcome
  | returned (st : ShellState)
  | exited (status : Nat)
  | aborted
  | child (run : ChildRun)
  deriving DecidableEq

/-- The loop building `cmdLine`: `acc` is the string so far, `i` the index. -/
def cmdLineLoop : String → Nat → List String → String
  | acc, _, [] => acc
  | acc, i, a :: rest =>
    cmdLineLoop ((if i ≠ 0 then acc ++ " " else acc) ++ a) (i + 1) rest

/-- The first statements of `executeCommand` on a non-empty `args`: `cmdLine` is
built, pushed on `historyList` and copied to `lastCommand`. -/
def recordCommand (st : ShellState) (args : List String) : ShellState :=
  { st with
    historyList := st.historyList ++ [cmdLineLoop "" 0 args]
    lastCommand := cmdLineLoop "" 0 args }

/-- The branch `pid == 0` of `executeCommand`. -/
def commandChild (env : Env) (args : List String) : Option Outcome :=
  match handleRedirection env.openOk args with
  | none => none
  | some r =>
    some (Outcome.child
      ⟨r, r.args.head?, r.args, childExec env.execOk 127 r.args⟩)

/-- The function `executeCommand(args, background)`.  Fuel bounds the depth of the
recursive call made by the builtin `!!`. -/
def executeCommand (env : Env) : Nat → ShellState → List String → Bool → Option Outcome
  | 0, _, _, _ => none
  | fuel + 1, st0, args, background =>
    match args with
    | [] => some (Outcome.returned st0)
    | cmd :: _ =>
      let st : ShellState := recordCommand st0 args
      if cmd = "cd" then some (Outcome.returned st)
      else if cmd = "exit" then some (Outcome.exited 0)
      else if cmd = "help" then some (Outcome.returned st)
      else if cmd = "history" then some (Outcome.returned st)
      else if cmd = "!!" then
        if st.lastCommand = "" then some (Outcome.returned st)
        else executeCommand env fuel st (parseInput st.lastCommand) false
      else if cmd = "whoami" then some (Outcome.returned st)
      else if cmd = "setenv" then some (Outcome.returned st)
      else if cmd = "printenv" then some (Outcome.returned st)
      else if cmd = "jobs" then some (Outcome.returned st)
      else if cmd = "fg" then
        if args.length < 2 then some (Outcome.returned st)
        else
          match stoi (args.getD 1 "") with
          | none => some Outcome.aborted
          | some id => some (Outcome.returned (bringToForeground env st id))
      else if cmd = "bg" then
        if args.length < 2 then some (Outcome.returned st)
        else
          match stoi (args.getD 1 "") with
          | none => some Outcome.aborted
          | some id => some (Outcome.returned (sendToBackground env st id))
      else if env.forkRes = 0 then commandChild env args
      else if 0 < env.forkRes then
        if background then
          some (Outcome.returned
            { st with
              jobs := jobsAssign st.jobs st.jobCounter ⟨env.forkRes, cmd, true⟩
              jobCounter := wrapInt32 (st.jobCounter + 1) })
        else
          let _waited := env.waitpidRes
          some (Outcome.returned st)
      else some (Outcome.returned st)

/-! ## Main loop -/

/-- The characters of the set `" \t\n"` used by the two trims of `main`. -/
def isTrimChar (c : Char) : Bool := c = ' ' ∨ c = '\t' ∨ c = '\n'

/-- The trim of `main`: `none` when `find_first_not_of(" \t\n")` is `npos`,
otherwise `substr(first, last - first + 1)`. -/
def trimBlanks (s : List Char) : Option (List Char) :=
  if s.dropWhile isTrimChar = [] then none
  else some ((s.dropWhile isTrimChar).reverse.dropWhile isTrimChar).reverse

/-- The loop `while (getline(ss, segment, '|'))`: the segments read, `cur` holding
the characters of the current one, last read first.  At the end of the stream
`getline` succeeds only when it extracted a character. -/
def getlineSegments : List Char → List Char → List (List Char)
  | [], cur => if cur = [] then [] else [cur.reverse]
  | c :: rest, cur =>
    if c = '|' then cur.reverse :: getlineSegments rest []
    else getlineSegments rest (c :: cur)

/-- The vector `pipeline` that `main` builds from a trimmed line containing a bar. -/
def buildPipeline (line : List Char) : List (List String) :=
  (getlineSegments line []).filterMap fun segment =>
    (trimBlanks segment).map fun seg => parseInput (String.mk seg)

/-- What one turn of the main loop hands to the execution engine. -/
inductive Dispatch
  | skip
  | pipeline (commands : List (List String))
  | command (args : List String) (background : Bool)
  deriving DecidableEq

/-- The decisions of one turn of the `while (true)` loop of `main` on the line
read: trim, pipeline test, tokenizing, background test. -/
def mainDispatch (line : String) : Dispatch :=
  match trimBlanks line.data with
  | none => Dispatch.skip
  | some l =>
    if l = [] then Dispatch.skip
    else if '|' ∈ l then Dispatch.pipeline (buildPipeline l)
    else
      let args := parseInput (String.mk l)
      if args ≠ [] ∧ args.getLast? = some "&" then Dispatch.command args.dropLast true
      else Dispatch.command args false

/-- The trimmed line that `main` records in `historyList` and `lastCommand`. -/
def trimmedLine (line : String) : String :=
  match trimBlanks line.data with
  | none => ""
  | some l => String.mk l

/-- One turn of the `while (true)` loop of `main` on the line read. -/
def mainIteration (env : Env) (fuel : Nat) (st : ShellState) (line : String) :
    Option Outcome :=
  let st1 : ShellState :=
    { st with historyList := st.historyList ++ [trimmedLine line],
              lastCommand := trimmedLine line }
  match mainDispatch line with
  | Dispatch.skip => some (Outcome.returned st)
  | Dispatch.pipeline commands =>
    if commands ≠ [] then
      match executePipeline env commands with
      | none => none
      | some (PipeOutcome.parent _) => some (Outcome.returned st1)
      | some (PipeOutcome.child _ _ run) => some (Outcome.child run)
    else some (Outcome.returned st1)
  | Dispatch.command args background => executeCommand env fuel st1 args background

/-- A session: the shell states before each turn of the main loop and after the
last one, for the lines read with the answers of the operating system to each.
The session ends at the first turn that does not return to the loop. -/
def runSession (fuel : Nat) : ShellState → List (String × Env) → List ShellState
  | st, [] => [st]
  | st, (line, env) :: rest =>
    match mainIteration env fuel st line with
    | some (Outcome.returned st2) => st :: runSession fuel st2 rest
    | _ => [st]

/-- Job ids that appear between two consecutive states of a session. -/
def newJobIds (st st2 : ShellState) : List Int :=
  (jobKeys st2.jobs).filter fun k => decide (k ∉ jobKeys st.jobs)

/-- All job ids assigned along a list of consecutive states, in order. -/
def assignedIds : List ShellState → List Int
  | [] => []
  | [_] => []
  | st :: st2 :: rest => newJobIds st st2 ++ assignedIds (st2 :: rest)

/-- The values of `jobCounter` along a list of states. -/
def counters (trace : List ShellState) : List Int := trace.map ShellState.jobCounter

/-! ## Observations on outcomes and sample environments -/

/-- The first tokens that `executeCommand` handles itself, in the order tested. -/
def builtinNames : List String :=
  ["cd", "exit", "help", "history", "!!", "whoami", "setenv", "printenv", "jobs", "fg", "bg"]

/-- The `execvp` calls made on the way to an outcome of `executeCommand`. -/
def execvpCalls : Option Outcome → List (Option String × List String)
  | some (Outcome.child run) => [(run.file, run.argv)]
  | _ => []

/-- The `execvp` calls made on the way to an outcome of `executePipeline`. -/
def pipeExecvpCalls : Option PipeOutcome → List (Option String × List String)
  | some (PipeOutcome.child _ _ run) => [(run.file, run.argv)]
  | _ => []

/-- Exit status of the child an outcome of `executeCommand` describes, if the
child exited. -/
def childExitStatus : Option Outcome → Option Nat
  | some (Outcome.child ⟨_, _, _, ChildEnd.exited status⟩) => some status
  | _ => none

/-- Exit status of the child an outcome of `executePipeline` describes, if the
child exited. -/
def pipeChildExitStatus : Option PipeOutcome → Option Nat
  | some (PipeOutcome.child _ _ ⟨_, _, _, ChildEnd.exited status⟩) => some status
  | _ => none

/-- An environment seen from the shell in which every call succeeds: `fork`
returns positive process ids and every program is found. -/
def allSucceed : Env :=
  { openOk := fun _ _ _ => true
    execOk := fun _ _ => true
    forkRes := 4242
    killRes := 0
    waitpidRes := 4242
    pipeRes := fun _ => 0
    pipeForkRes := fun i => 5000 + i }

/-- The environment `allSucceed` seen from the child of `executeCommand`
(`fork` returned `0`) when no program can be executed. -/
def inChildNoExec : Env :=
  { allSucceed with forkRes := 0, execOk := fun _ _ => false }

/-- The environment `allSucceed` seen from the child of segment `k` of a pipeline
when no program can be executed. -/
def inPipeChildNoExec (k : Nat) : Env :=
  { allSucceed with
    pipeForkRes := fun i => if i = k then 0 else 5000 + i
    execOk := fun _ _ => false }

/-- The calls of `c` consecutive successful iterations of the first loop of
`executePipeline`, starting at index `i`. -/
def pipeEvents (pipeRes : Nat → Int) (i c : Nat) : List SysEvent :=
  (List.range c).map fun j => SysEvent.pipe ((i + j) * 2) (pipeRes (i + j))

/-- The calls of `c` consecutive iterations of the second loop of `executePipeline`
in the shell, starting at index `i`. -/
def forkEvents (forkRes : Nat → Int) (i c : Nat) : List SysEvent :=
  (List.range c).map fun j => SysEvent.fork (forkRes (i + j))

/-- The job-table invariant: every job id in the table is below `jobCounter`, and
`jobCounter` is at least 1. -/
def JobsBelowCounter (st : ShellState) : Prop :=
  (∀ k ∈ jobKeys st.jobs, k < st.jobCounter) ∧ 1 ≤ st.jobCounter

/-- What one turn of the main loop may do to the job table: either `jobCounter`
is kept and no job id is new, or one entry is added under the id `jobCounter` and
`jobCounter` is incremented. -/
def JobStep (st st2 : ShellState) : Prop :=
  (st2.jobCounter = st.jobCounter ∧ ∀ k ∈ jobKeys st2.jobs, k ∈ jobKeys st.jobs) ∨
    (st2.jobCounter = st.jobCounter + 1 ∧ ∃ j, st2.jobs = st.jobs ++ [(st.jobCounter, j)])

/-- A sample session: three background launches with a foreground command, an
`fg` and a `jobs` in between; every call of the operating system succeeds. -/
def sampleSession : List (String × Env) :=
  [("sleep 5 &", allSucceed), ("ls -l", allSucceed), ("sleep 6 &", allSucceed),
    ("fg 1", allSucceed), ("sleep 7 &", allSucceed), ("jobs", allSucceed)]

end CustomShell

namespace CustomShell

/-! ## Redirection: lemmas -/

theorem size_dec_inc (i : Nat) (h : i < SIZE_MOD) :
    ((i + SIZE_MOD - 1) % SIZE_MOD + 1) % SIZE_MOD = i := by
  unfold SIZE_MOD at *
  omega

theorem size_inc (i : Nat) (h : i + 1 < SIZE_MOD) : (i + 1) % SIZE_MOD = i + 1 :=
  Nat.mod_eq_of_lt h

theorem getD_append_length (pre rest : List String) (t : String) :
    (pre ++ t :: rest).getD pre.length "" = t := by
  induction pre with
  | nil => rfl
  | cons a pre ih => simpa [List.getD] using ih

theorem getD_append_length_succ (pre rest : List String) (t u : String) :
    (pre ++ t :: u :: rest).getD (pre.length + 1) "" = u := by
  have h : pre ++ t :: u :: rest = (pre ++ [t]) ++ u :: rest := by simp
  rw [h]
  have h2 : pre.length + 1 = (pre ++ [t]).length := by simp
  rw [h2]
  exact getD_append_length _ _ _

theorem eraseTwo_append (pre rest : List String) (t u : String) :
    eraseTwo (pre ++ t :: u :: rest) pre.length = pre ++ rest := by
  simp [eraseTwo, List.take_append_eq_append_take, List.drop_append_eq_append_drop]

theorem isRedirToken_iff (t : String) : isRedirToken t = true ↔ t = ">" ∨ t = "<" := by
  simp [isRedirToken]

theorem stripRedirections_cons_of_not (t : String) (rest : List String)
    (h : isRedirToken t = false) :
    stripRedirections (t :: rest) = t :: stripRedirections rest := by
  cases rest with
  | nil => simp [stripRedirections, h]
  | cons u rest => simp [stripRedirections, h]

theorem redirWellFormed_cons_of_not (t : String) (rest : List String)
    (h : isRedirToken t = false) :
    redirWellFormed (t :: rest) = redirWellFormed rest := by
  cases rest with
  | nil => simp [redirWellFormed, h]
  | cons u rest => simp [redirWellFormed, h]

theorem stripRedirections_props_aux : ∀ (n : Nat) (args : List String), args.length ≤ n →
    (stripRedirections args).Sublist args ∧
      ∀ t ∈ stripRedirections args, t ≠ ">" ∧ t ≠ "<" := by
  intro n
  induction n with
  | zero =>
    intro args h
    have : args = [] := List.length_eq_zero.mp (Nat.le_zero.mp h)
    subst this
    simp [stripRedirections]
  | succ n ih =>
    intro args h
    match args, h with
    | [], _ => simp [stripRedirections]
    | t :: rest, h =>
      cases ht : isRedirToken t with
      | true =>
        match rest, h with
        | [], _ => simp [stripRedirections, ht]
        | u :: rest2, h =>
          have hl : rest2.length ≤ n := by simp at h; omega
          obtain ⟨h1, h2⟩ := ih rest2 hl
          simp only [stripRedirections, ht, if_true]
          exact ⟨(h1.cons u).cons t, h2⟩
      | false =>
        have hl : rest.length ≤ n := by simp at h; omega
        obtain ⟨h1, h2⟩ := ih rest hl
        rw [stripRedirections_cons_of_not t rest ht]
        refine ⟨by simpa using h1, ?_⟩
        intro x hx
        rcases List.mem_cons.mp hx with rfl | hx
        · have ht2 : ¬ (isRedirToken x = true) := by simp [ht]
          rw [isRedirToken_iff] at ht2
          exact ⟨fun e => ht2 (Or.inl e), fun e => ht2 (Or.inr e)⟩
        · exact h2 x hx

theorem stripRedirections_sublist (args : List String) :
    (stripRedirections args).Sublist args :=
  (stripRedirections_props_aux args.length args le_rfl).1

theorem stripRedirections_no_redir (args : List String) :
    ∀ t ∈ stripRedirections args, t ≠ ">" ∧ t ≠ "<" :=
  (stripRedirections_props_aux args.length args le_rfl).2


theorem redirBindings_cons_of_not (t : String) (rest : List String)
    (h : isRedirToken t = false) : redirBindings (t :: rest) = redirBindings rest := by
  have h2 : ¬ (isRedirToken t = true) := by simp [h]
  rw [isRedirToken_iff] at h2
  cases rest with
  | nil => simp [redirBindings]
  | cons u rest =>
    rw [redirBindings, if_neg (fun e => h2 (Or.inl e)), if_neg (fun e => h2 (Or.inr e))]

theorem redirBindings_redir (t u : String) (rest : List String) (h : t = ">" ∨ t = "<") :
    redirBindings (t :: u :: rest) =
      ((if t = ">" then Stream.stdout else Stream.stdin), u) :: redirBindings rest := by
  rcases h with rfl | rfl
  · rw [redirBindings, if_pos rfl, if_pos rfl]
  · rw [redirBindings, if_neg (by decide), if_pos rfl, if_neg (by decide)]

theorem loop_redirect_step (openOk : Nat → String → Bool → Bool) (fuel : Nat)
    (pre rest : List String) (t u : String) (binds : List (Stream × String))
    (hlen : (pre ++ t :: u :: rest).length < SIZE_MOD) (ht : t = ">" ∨ t = "<")
    (hopen : openOk binds.length u (decide (t = ">")) = true) :
    handleRedirectionLoop openOk (fuel + 1) (pre ++ t :: u :: rest) pre.length binds =
      handleRedirectionLoop openOk fuel (pre ++ rest) pre.length
        (binds ++ [((if t = ">" then Stream.stdout else Stream.stdin), u)]) := by
  have hi : pre.length < (pre ++ t :: u :: rest).length := by simp
  have h1 : (pre.length + 1) % SIZE_MOD = pre.length + 1 := by
    apply size_inc
    simp at hlen
    omega
  have h2 : ¬ (pre.length + 1 ≥ (pre ++ t :: u :: rest).length) := by simp
  have h3 : ((pre.length + SIZE_MOD - 1) % SIZE_MOD + 1) % SIZE_MOD = pre.length := by
    apply size_dec_inc
    simp at hlen
    omega
  rw [handleRedirectionLoop, if_pos hi, getD_append_length, h1, getD_append_length_succ,
    eraseTwo_append, h3]
  rcases ht with rfl | rfl
  · have ho : openOk binds.length u true = true := by simpa using hopen
    rw [if_pos rfl, if_neg h2, if_pos ho, if_pos rfl]
  · have ho : openOk binds.length u false = true := by simpa using hopen
    rw [if_neg (by decide), if_pos rfl, if_neg h2, if_pos ho, if_neg (by decide)]

theorem loop_plain_step (openOk : Nat → String → Bool → Bool) (fuel : Nat)
    (pre rest : List String) (t : String) (binds : List (Stream × String))
    (hlen : (pre ++ t :: rest).length < SIZE_MOD) (ht : isRedirToken t = false) :
    handleRedirectionLoop openOk (fuel + 1) (pre ++ t :: rest) pre.length binds =
      handleRedirectionLoop openOk fuel ((pre ++ [t]) ++ rest) (pre ++ [t]).length binds := by
  have hi : pre.length < (pre ++ t :: rest).length := by simp
  have h1 : (pre.length + 1) % SIZE_MOD = pre.length + 1 := by
    apply size_inc
    simp at hlen
    omega
  have ht2 : ¬ (isRedirToken t = true) := by simp [ht]
  rw [isRedirToken_iff] at ht2
  rw [handleRedirectionLoop, if_pos hi, getD_append_length,
    if_neg (fun e => ht2 (Or.inl e)), if_neg (fun e => ht2 (Or.inr e)), h1]
  simp

theorem loop_done (openOk : Nat → String → Bool → Bool) (fuel : Nat)
    (pre : List String) (binds : List (Stream × String)) :
    handleRedirectionLoop openOk (fuel + 1) pre pre.length binds =
      some ⟨pre, binds, none⟩ := by
  rw [handleRedirectionLoop, if_neg (lt_irrefl _)]

theorem loop_strip (openOk : Nat → String → Bool → Bool) :
    ∀ (fuel : Nat) (rest pre : List String) (binds : List (Stream × String)),
      (pre ++ rest).length < SIZE_MOD → redirWellFormed rest = true → rest.length < fuel →
      (∀ k s p, (redirBindings rest)[k]? = some (s, p) →
        openOk (binds.length + k) p (decide (s = Stream.stdout)) = true) →
      handleRedirectionLoop openOk fuel (pre ++ rest) pre.length binds =
        some ⟨pre ++ stripRedirections rest, binds ++ redirBindings rest, none⟩ := by
  intro fuel
  induction fuel with
  | zero => intro rest pre binds _ _ h; exact absurd h (Nat.not_lt_zero _)
  | succ fuel ih =>
    intro rest pre binds hlen hwf hfuel hopen
    match rest, hlen, hwf, hfuel, hopen with
    | [], _, _, _, _ =>
      simpa [stripRedirections, redirBindings] using loop_done openOk fuel pre binds
    | t :: rest, hlen, hwf, hfuel, hopen =>
      cases ht : isRedirToken t with
      | false =>
        rw [redirWellFormed_cons_of_not t rest ht] at hwf
        rw [redirBindings_cons_of_not t rest ht] at hopen
        rw [loop_plain_step openOk fuel pre rest t binds hlen ht,
          stripRedirections_cons_of_not t rest ht, redirBindings_cons_of_not t rest ht]
        have hfuel2 : rest.length < fuel := by simp at hfuel; omega
        have hb := ih rest (pre ++ [t]) binds (by simpa using hlen) hwf hfuel2 hopen
        simpa using hb
      | true =>
        match rest, hlen, hwf, hfuel, hopen with
        | [], _, hwf, _, _ => simp [redirWellFormed, ht] at hwf
        | u :: rest, hlen, hwf, hfuel, hopen =>
          have ht2 := (isRedirToken_iff t).mp ht
          simp only [redirWellFormed, ht, if_true] at hwf
          rw [redirBindings_redir t u rest ht2] at hopen
          have ho : openOk binds.length u (decide (t = ">")) = true := by
            have h0 := hopen 0 (if t = ">" then Stream.stdout else Stream.stdin) u
              (by simp)
            rcases ht2 with rfl | rfl
            · simpa using h0
            · simpa using h0
          rw [loop_redirect_step openOk fuel pre rest t u binds hlen ht2 ho]
          have hfuel2 : rest.length < fuel := by simp at hfuel; omega
          have hlen2 : (pre ++ rest).length < SIZE_MOD := by
            simp at hlen ⊢
            omega
          have hb := ih rest pre
            (binds ++ [((if t = ">" then Stream.stdout else Stream.stdin), u)]) hlen2 hwf hfuel2
            (fun k s p hk => by
              have h1 := hopen (k + 1) s p (by simpa using hk)
              have h2 : (binds ++ [((if t = ">" then Stream.stdout else Stream.stdin), u)]).length
                  + k = binds.length + (k + 1) := by
                simp
                omega
              rw [h2]
              exact h1)
          rw [hb, redirBindings_redir t u rest ht2]
          simp [stripRedirections, ht]

/-- C1: on an argument list (shorter than the range of `size_t`) in which every
redirection token met by the scan is followed by a token, and for which every
`open` the scan makes succeeds (the `k`-th on the `k`-th filename, for writing
after `>` and for reading after `<`), `handleRedirection` returns without error
and leaves exactly the list with each scanned redirection token and its filename
removed; that list is a subsequence of the input in the original order and holds
no `<` or `>` token; the bindings made are those of the scanned redirections. -/
theorem handleRedirection_strips (openOk : Nat → String → Bool → Bool) (args : List String)
    (hlen : args.length < SIZE_MOD) (hwf : redirWellFormed args = true)
    (hopen : ∀ k s p, (redirBindings args)[k]? = some (s, p) →
      openOk k p (decide (s = Stream.stdout)) = true) :
    ∃ r, handleRedirection openOk args = some r ∧ r.error = none ∧
      r.args = stripRedirections args ∧ r.args.Sublist args ∧
      (∀ t ∈ r.args, t ≠ ">" ∧ t ≠ "<") ∧ r.bindings = redirBindings args := by
  have hb := loop_strip openOk (args.length + 1) args [] [] (by simpa using hlen) hwf
    (Nat.lt_succ_self _) (by simpa using hopen)
  refine ⟨⟨stripRedirections args, redirBindings args, none⟩, ?_, rfl, rfl,
    stripRedirections_sublist args, stripRedirections_no_redir args, rfl⟩
  simpa [handleRedirection] using hb

/-- Witness for C1: a redirection at index 0 directly followed by a second one;
only `out` can be opened for writing and only `in` for reading. -/
theorem handleRedirection_strips_witness :
    ∃ r, handleRedirection
          (fun _ p w => (p = "out" ∧ w = true) ∨ (p = "in" ∧ w = false))
          [">", "out", "<", "in", "cat", "-n"] = some r ∧
      r.error = none ∧
      r.args = stripRedirections [">", "out", "<", "in", "cat", "-n"] ∧
      r.args.Sublist [">", "out", "<", "in", "cat", "-n"] ∧
      (∀ t ∈ r.args, t ≠ ">" ∧ t ≠ "<") ∧
      r.bindings = redirBindings [">", "out", "<", "in", "cat", "-n"] :=
  handleRedirection_strips (fun _ p w => (p = "out" ∧ w = true) ∨ (p = "in" ∧ w = false))
    [">", "out", "<", "in", "cat", "-n"] (by decide) (by decide)
    (fun k s p hk => by
      have hb : redirBindings [">", "out", "<", "in", "cat", "-n"] =
          [(Stream.stdout, "out"), (Stream.stdin, "in")] := by decide
      rw [hb] at hk
      match k, hk with
      | 0, hk =>
        simp only [List.getElem?_cons_zero, Option.some.injEq, Prod.mk.injEq] at hk
        obtain ⟨rfl, rfl⟩ := hk
        decide
      | 1, hk =>
        simp only [List.getElem?_cons_succ, List.getElem?_cons_zero, Option.some.injEq,
          Prod.mk.injEq] at hk
        obtain ⟨rfl, rfl⟩ := hk
        decide
      | k + 2, hk => simp at hk)

theorem getD_mem (args : List String) (i : Nat) (h : i < args.length) :
    args.getD i "" ∈ args := by
  rw [List.getD_eq_getElem _ _ h]
  exact List.getElem_mem h

theorem eraseTwo_length (args : List String) (i : Nat) (h : i + 1 < args.length) :
    (eraseTwo args i).length = args.length - 2 := by
  simp [eraseTwo]
  omega

theorem eraseTwo_sublist (args : List String) (i : Nat) : (eraseTwo args i).Sublist args := by
  have h : args = args.take i ++ args.drop i := (List.take_append_drop i args).symm
  conv_rhs => rw [h]
  unfold eraseTwo
  apply List.Sublist.append (List.Sublist.refl _)
  have h2 : List.drop (i + 2) args = List.drop 2 (List.drop i args) := by
    rw [List.drop_drop, Nat.add_comm]
  rw [h2]
  exact List.drop_sublist _ _

/-- The loop of `handleRedirection` returns within `args.length - i + 1`
iterations.  What it leaves is a subsequence of what it was given, and when it
gave up a redirection token is still in the list. -/
theorem loop_total (openOk : Nat → String → Bool → Bool) :
    ∀ (fuel : Nat) (args : List String) (i : Nat) (binds : List (Stream × String)),
      i ≤ args.length → args.length < SIZE_MOD → args.length - i < fuel →
      ∃ r, handleRedirectionLoop openOk fuel args i binds = some r ∧
        r.args.Sublist args ∧
        (r.error ≠ none → ∃ t ∈ r.args, t = ">" ∨ t = "<") := by
  intro fuel
  induction fuel with
  | zero => intro args i binds _ _ h; exact absurd h (Nat.not_lt_zero _)
  | succ fuel ih =>
    intro args i binds hi hlen hfuel
    have hstep : ∀ b, i < args.length → ¬ ((i + 1) % SIZE_MOD ≥ args.length) →
        ∃ r, handleRedirectionLoop openOk fuel (eraseTwo args i)
            (((i + SIZE_MOD - 1) % SIZE_MOD + 1) % SIZE_MOD) b = some r ∧
          r.args.Sublist args ∧ (r.error ≠ none → ∃ t ∈ r.args, t = ">" ∨ t = "<") := by
      intro b h1 h2
      have h3 : (i + 1) % SIZE_MOD = i + 1 := size_inc i (by omega)
      rw [h3] at h2
      have h4 : i + 1 < args.length := by omega
      rw [size_dec_inc i (by omega)]
      have hl := eraseTwo_length args i h4
      obtain ⟨r, hr, hs, he⟩ := ih (eraseTwo args i) i b (by omega) (by omega) (by omega)
      exact ⟨r, hr, hs.trans (eraseTwo_sublist args i), he⟩
    rw [handleRedirectionLoop]
    split_ifs with h1 h2 h3 h4 h5 h6 h7
    · exact ⟨_, rfl, List.Sublist.refl _, fun _ => ⟨_, getD_mem args i h1, Or.inl h2⟩⟩
    · exact hstep _ h1 h3
    · exact ⟨_, rfl, List.Sublist.refl _, fun _ => ⟨_, getD_mem args i h1, Or.inl h2⟩⟩
    · exact ⟨_, rfl, List.Sublist.refl _, fun _ => ⟨_, getD_mem args i h1, Or.inr h5⟩⟩
    · exact hstep _ h1 h6
    · exact ⟨_, rfl, List.Sublist.refl _, fun _ => ⟨_, getD_mem args i h1, Or.inr h5⟩⟩
    · have h3 : (i + 1) % SIZE_MOD = i + 1 := size_inc i (by omega)
      rw [h3]
      exact ih args (i + 1) binds (by omega) hlen (by omega)
    · exact ⟨_, rfl, List.Sublist.refl _, fun h => absurd rfl h⟩

theorem handleRedirection_total (openOk : Nat → String → Bool → Bool) (args : List String)
    (hlen : args.length < SIZE_MOD) :
    ∃ r, handleRedirection openOk args = some r ∧ r.args.Sublist args ∧
      (r.error ≠ none → ∃ t ∈ r.args, t = ">" ∨ t = "<") :=
  loop_total openOk (args.length + 1) args 0 [] (Nat.zero_le _) hlen (by omega)


/-! ## Pipelines: lemmas -/

theorem pipeEvents_succ (pipeRes : Nat → Int) (i c : Nat) :
    pipeEvents pipeRes i (c + 1) =
      SysEvent.pipe (i * 2) (pipeRes i) :: pipeEvents pipeRes (i + 1) c := by
  simp [pipeEvents, List.range_succ_eq_map, Function.comp_def, Nat.add_assoc, Nat.add_comm 1]

theorem forkEvents_succ (forkRes : Nat → Int) (i c : Nat) :
    forkEvents forkRes i (c + 1) =
      SysEvent.fork (forkRes i) :: forkEvents forkRes (i + 1) c := by
  simp [forkEvents, List.range_succ_eq_map, Function.comp_def, Nat.add_assoc, Nat.add_comm 1]

theorem pipeLoop_prefix (pipeRes : Nat → Int) :
    ∀ (c k i : Nat) (ev : List SysEvent), (∀ j, j < c → pipeRes (i + j) ≠ -1) →
      pipeLoop pipeRes (c + k) i ev = pipeLoop pipeRes k (i + c) (ev ++ pipeEvents pipeRes i c) := by
  intro c
  induction c with
  | zero => intro k i ev _; simp [pipeEvents]
  | succ c ih =>
    intro k i ev h
    have h0 : pipeRes i ≠ -1 := by simpa using h 0 (Nat.succ_pos _)
    have hk : c + 1 + k = (c + k) + 1 := by omega
    rw [hk, pipeLoop, if_neg h0, ih k (i + 1) _ (fun j hj => by
      have := h (j + 1) (by omega)
      rwa [show i + (j + 1) = i + 1 + j by omega] at this), pipeEvents_succ]
    simp [Nat.add_assoc, Nat.add_comm 1]

theorem forkLoop_prefix (env : Env) (commands : List (List String)) (n : Nat) :
    ∀ (c k i : Nat) (ev : List SysEvent), (∀ j, j < c → 0 < env.pipeForkRes (i + j)) →
      forkLoop env commands n (c + k) i ev =
        forkLoop env commands n k (i + c) (ev ++ forkEvents env.pipeForkRes i c) := by
  intro c
  induction c with
  | zero => intro k i ev _; simp [forkEvents]
  | succ c ih =>
    intro k i ev h
    have h0 : 0 < env.pipeForkRes i := by simpa using h 0 (Nat.succ_pos _)
    have hk : c + 1 + k = (c + k) + 1 := by omega
    rw [hk, forkLoop, if_neg (by omega), if_neg (by omega), ih k (i + 1) _ (fun j hj => by
      have := h (j + 1) (by omega)
      rwa [show i + (j + 1) = i + 1 + j by omega] at this), forkEvents_succ]
    simp [Nat.add_assoc, Nat.add_comm 1]

theorem pipesAllocated_append (a b : List SysEvent) :
    pipesAllocated (a ++ b) = pipesAllocated a + pipesAllocated b := by
  simp [pipesAllocated]

theorem spawned_append (a b : List SysEvent) : spawned (a ++ b) = spawned a + spawned b := by
  simp [spawned]

theorem reaped_append (a b : List SysEvent) : reaped (a ++ b) = reaped a + reaped b := by
  simp [reaped]

theorem closedSlots_append (a b : List SysEvent) :
    closedSlots (a ++ b) = closedSlots a ++ closedSlots b := by
  simp [closedSlots]

theorem closedSlots_closeAll (n : Nat) : closedSlots (closeAll n) = List.range (2 * (n - 1)) := by
  unfold closedSlots closeAll
  rw [List.filterMap_map]
  have h : ((fun e => match e with
      | SysEvent.close slot => some slot
      | _ => none) ∘ SysEvent.close) = some := rfl
  rw [h, List.filterMap_some]

theorem closedSlots_waits (n : Nat) : closedSlots (List.replicate n SysEvent.wait) = [] := by
  induction n with
  | zero => rfl
  | succ n ih =>
    rw [List.replicate_succ]
    exact ih

theorem closedSlots_pipeEvents (pipeRes : Nat → Int) :
    ∀ (c i : Nat), closedSlots (pipeEvents pipeRes i c) = [] := by
  intro c
  induction c with
  | zero => intro i; rfl
  | succ c ih =>
    intro i
    rw [pipeEvents_succ]
    simpa [closedSlots] using ih (i + 1)

theorem closedSlots_forkEvents (forkRes : Nat → Int) :
    ∀ (c i : Nat), closedSlots (forkEvents forkRes i c) = [] := by
  intro c
  induction c with
  | zero => intro i; rfl
  | succ c ih =>
    intro i
    rw [forkEvents_succ]
    simpa [closedSlots] using ih (i + 1)

theorem counts_closeAll (n : Nat) :
    pipesAllocated (closeAll n) = 0 ∧ spawned (closeAll n) = 0 ∧ reaped (closeAll n) = 0 := by
  simp [pipesAllocated, spawned, reaped, closeAll, List.filter_eq_nil_iff]

theorem counts_waits (n : Nat) :
    pipesAllocated (List.replicate n SysEvent.wait) = 0 ∧
      spawned (List.replicate n SysEvent.wait) = 0 ∧
      reaped (List.replicate n SysEvent.wait) = n := by
  refine ⟨?_, ?_, ?_⟩
  · simp [pipesAllocated, List.filter_eq_nil_iff]
  · simp [spawned, List.filter_eq_nil_iff]
  · simp [reaped, List.filter_eq_self.mpr]

theorem counts_pipeEvents (pipeRes : Nat → Int) :
    ∀ (c i : Nat), (∀ j, j < c → pipeRes (i + j) ≠ -1) →
      pipesAllocated (pipeEvents pipeRes i c) = c ∧ spawned (pipeEvents pipeRes i c) = 0 ∧
        reaped (pipeEvents pipeRes i c) = 0 := by
  intro c
  induction c with
  | zero => intro i _; simp [pipeEvents, pipesAllocated, spawned, reaped]
  | succ c ih =>
    intro i h
    have h0 : pipeRes i ≠ -1 := by simpa using h 0 (Nat.succ_pos _)
    obtain ⟨h1, h2, h3⟩ := ih (i + 1) (fun j hj => by
      have := h (j + 1) (by omega)
      rwa [show i + (j + 1) = i + 1 + j by omega] at this)
    rw [pipeEvents_succ]
    refine ⟨?_, ?_, ?_⟩
    · simpa [pipesAllocated, h0] using h1
    · simpa [spawned] using h2
    · simpa [reaped] using h3

theorem counts_forkEvents (forkRes : Nat → Int) :
    ∀ (c i : Nat), (∀ j, j < c → 0 < forkRes (i + j)) →
      pipesAllocated (forkEvents forkRes i c) = 0 ∧ spawned (forkEvents forkRes i c) = c ∧
        reaped (forkEvents forkRes i c) = 0 := by
  intro c
  induction c with
  | zero => intro i _; simp [forkEvents, pipesAllocated, spawned, reaped]
  | succ c ih =>
    intro i h
    have h0 : 0 < forkRes i := by simpa using h 0 (Nat.succ_pos _)
    obtain ⟨h1, h2, h3⟩ := ih (i + 1) (fun j hj => by
      have := h (j + 1) (by omega)
      rwa [show i + (j + 1) = i + 1 + j by omega] at this)
    rw [forkEvents_succ]
    refine ⟨?_, ?_, ?_⟩
    · simpa [pipesAllocated] using h1
    · simpa [spawned, h0] using h2
    · simpa [reaped] using h3


theorem pipeLoop_all_ok (pipeRes : Nat → Int) (m : Nat) (h : ∀ j, j < m → pipeRes j ≠ -1) :
    pipeLoop pipeRes m 0 [] = (pipeEvents pipeRes 0 m, true) := by
  have := pipeLoop_prefix pipeRes m 0 0 [] (by simpa using h)
  simpa [pipeLoop] using this

theorem executePipeline_all_ok (env : Env) (commands : List (List String))
    (hne : commands ≠ [])
    (hpipe : ∀ j, j < commands.length - 1 → env.pipeRes j ≠ -1)
    (hfork : ∀ j, j < commands.length → 0 < env.pipeForkRes j) :
    executePipeline env commands =
      some (PipeOutcome.parent
        (pipeEvents env.pipeRes 0 (commands.length - 1) ++
          forkEvents env.pipeForkRes 0 commands.length ++
          closeAll commands.length ++ List.replicate commands.length SysEvent.wait)) := by
  have hn : commands.length ≠ 0 := by simpa using hne
  have hf := forkLoop_prefix env commands commands.length commands.length 0 0
    (pipeEvents env.pipeRes 0 (commands.length - 1)) (by simpa using hfork)
  simp only [Nat.add_zero, Nat.zero_add] at hf
  simp only [executePipeline, if_neg hn, pipeLoop_all_ok env.pipeRes _ hpipe, hf, forkLoop]

theorem executePipeline_pipe_fails (env : Env) (commands : List (List String)) (c : Nat)
    (hc : c < commands.length - 1)
    (hpipe : ∀ j, j < c → env.pipeRes j ≠ -1) (hfail : env.pipeRes c = -1) :
    executePipeline env commands =
      some (PipeOutcome.parent
        (pipeEvents env.pipeRes 0 c ++ [SysEvent.pipe (c * 2) (env.pipeRes c)])) := by
  have hn : commands.length ≠ 0 := by omega
  obtain ⟨k, hk⟩ : ∃ k, commands.length - 1 = c + (k + 1) := ⟨commands.length - 1 - c - 1, by omega⟩
  have hp := pipeLoop_prefix env.pipeRes c (k + 1) 0 [] (by simpa using hpipe)
  simp only [Nat.zero_add, List.nil_append] at hp
  simp only [executePipeline, if_neg hn, hk, hp, pipeLoop, if_pos hfail]

theorem executePipeline_fork_fails (env : Env) (commands : List (List String)) (c : Nat)
    (hc : c < commands.length)
    (hpipe : ∀ j, j < commands.length - 1 → env.pipeRes j ≠ -1)
    (hfork : ∀ j, j < c → 0 < env.pipeForkRes j) (hfail : env.pipeForkRes c < 0) :
    executePipeline env commands =
      some (PipeOutcome.parent
        (pipeEvents env.pipeRes 0 (commands.length - 1) ++ forkEvents env.pipeForkRes 0 c ++
          [SysEvent.fork (env.pipeForkRes c)] ++ closeAll commands.length)) := by
  have hn : commands.length ≠ 0 := by omega
  obtain ⟨k, hk⟩ : ∃ k, commands.length = c + (k + 1) := ⟨commands.length - c - 1, by omega⟩
  have hf := forkLoop_prefix env commands commands.length c (k + 1) 0
    (pipeEvents env.pipeRes 0 (commands.length - 1)) (by simpa using hfork)
  simp only [Nat.zero_add] at hf
  have h0 : env.pipeForkRes c ≠ 0 := by omega
  rw [← hk] at hf
  simp only [executePipeline, if_neg hn, pipeLoop_all_ok env.pipeRes _ hpipe]
  rw [hf, forkLoop, if_neg h0, if_pos hfail]

theorem executeCommand_external (env : Env) (fuel : Nat) (st : ShellState) (cmd : String)
    (rest : List String) (background : Bool) (h : cmd ∉ builtinNames) :
    executeCommand env (fuel + 1) st (cmd :: rest) background =
      if env.forkRes = 0 then commandChild env (cmd :: rest)
      else if 0 < env.forkRes then
        if background then
          some (Outcome.returned
            { recordCommand st (cmd :: rest) with
              jobs := jobsAssign st.jobs st.jobCounter ⟨env.forkRes, cmd, true⟩
              jobCounter := wrapInt32 (st.jobCounter + 1) })
        else some (Outcome.returned (recordCommand st (cmd :: rest)))
      else some (Outcome.returned (recordCommand st (cmd :: rest))) := by
  simp only [builtinNames, List.mem_cons, List.mem_singleton, List.not_mem_nil, or_false,
    not_or] at h
  obtain ⟨h1, h2, h3, h4, h5, h6, h7, h8, h9, h10, h11⟩ := h
  rw [executeCommand]
  simp only [h1, h2, h3, h4, h5, h6, h7, h8, h9, h10, h11, if_false]
  rfl

theorem jobsAssign_append (j : Job) (c : Int) :
    ∀ (jobs : List (Int × Job)), (∀ k ∈ jobKeys jobs, k < c) →
      jobsAssign jobs c j = jobs ++ [(c, j)] := by
  intro jobs
  induction jobs with
  | nil => intro _; rfl
  | cons e jobs ih =>
    intro h
    obtain ⟨k1, j1⟩ := e
    have hk : k1 < c := h k1 (by simp [jobKeys])
    have ih2 := ih (fun k hk => h k (by
      simp only [jobKeys, List.map_cons, List.mem_cons] at hk ⊢
      exact Or.inr hk))
    rw [jobsAssign, if_neg (by omega), if_neg (by omega), ih2]
    rfl

theorem jobsFind_erase (id : Int) :
    ∀ (jobs : List (Int × Job)), jobsFind (jobsErase jobs id) id = none := by
  intro jobs
  induction jobs with
  | nil => rfl
  | cons e jobs ih =>
    obtain ⟨k, j⟩ := e
    by_cases hk : k = id
    · simpa [jobsErase, hk] using ih
    · have : jobsErase ((k, j) :: jobs) id = (k, j) :: jobsErase jobs id := by
        simp [jobsErase, hk]
      rw [this, jobsFind, if_neg hk, ih]


/-- One unit of fuel is enough for every command other than the builtin `!!`:
`executeCommand` then has an outcome. -/
theorem executeCommand_returns (env : Env) (fuel : Nat) (st : ShellState) (cmd : String)
    (rest : List String) (bg : Bool) (hne : cmd ≠ "!!")
    (hlen : (cmd :: rest).length < SIZE_MOD) :
    ∃ o, executeCommand env (fuel + 1) st (cmd :: rest) bg = some o := by
  by_cases hb : cmd ∈ builtinNames
  · simp only [builtinNames, List.mem_cons, List.mem_singleton, List.not_mem_nil,
      or_false] at hb
    rcases hb with rfl | rfl | rfl | rfl | rfl | rfl | rfl | rfl | rfl | rfl | rfl
    · exact ⟨_, rfl⟩
    · exact ⟨_, rfl⟩
    · exact ⟨_, rfl⟩
    · exact ⟨_, rfl⟩
    · exact absurd rfl hne
    · exact ⟨_, rfl⟩
    · exact ⟨_, rfl⟩
    · exact ⟨_, rfl⟩
    · exact ⟨_, rfl⟩
    · rw [executeCommand]
      rw [if_neg (by decide), if_neg (by decide), if_neg (by decide), if_neg (by decide),
        if_neg (by decide), if_neg (by decide), if_neg (by decide), if_neg (by decide),
        if_neg (by decide), if_pos rfl]
      split_ifs
      · exact ⟨_, rfl⟩
      · split <;> exact ⟨_, rfl⟩
    · rw [executeCommand]
      rw [if_neg (by decide), if_neg (by decide), if_neg (by decide), if_neg (by decide),
        if_neg (by decide), if_neg (by decide), if_neg (by decide), if_neg (by decide),
        if_neg (by decide), if_neg (by decide), if_pos rfl]
      split_ifs
      · exact ⟨_, rfl⟩
      · split <;> exact ⟨_, rfl⟩
  · obtain ⟨r, hr, _⟩ := handleRedirection_total env.openOk (cmd :: rest) hlen
    rw [executeCommand_external env fuel st cmd rest bg hb]
    split_ifs
    · rw [commandChild, hr]
      exact ⟨_, rfl⟩
    · exact ⟨_, rfl⟩
    · exact ⟨_, rfl⟩
    · exact ⟨_, rfl⟩

/-! ## Launching after a failed redirection -/

/-- C6: when `execvp` fails, the child of `executeCommand` exits with status 127,
but the child of a pipeline segment exits with status 1. -/
theorem exec_failure_exit_status :
    childExitStatus (executeCommand inChildNoExec 1 initialState ["nosuchprogram"] false) =
        some 127 ∧
      pipeChildExitStatus (executePipeline (inPipeChildNoExec 0) [["nosuchprogram"], ["cat"]]) =
        some 1 ∧
      pipeChildExitStatus (executePipeline (inPipeChildNoExec 1) [["ls"], ["nosuchprogram"]]) =
        some 1 := by
  decide

/-! ## The trailing ampersand -/

/-- C8: on the line `ls | wc &` the main loop takes the pipeline branch before the
background test, the last segment handed to `executePipeline` is `wc &`, and its
child calls `execvp` with `&` as an argument; on the line `wc &` the token is
removed before `executeCommand`. -/
theorem pipeline_keeps_ampersand :
    mainDispatch "ls | wc &" = Dispatch.pipeline [["ls"], ["wc", "&"]] ∧
      pipeExecvpCalls (executePipeline (inPipeChildNoExec 1) [["ls"], ["wc", "&"]]) =
        [(some "wc", ["wc", "&"])] ∧
      mainDispatch "wc &" = Dispatch.command ["wc"] true := by
  decide

/-! ## Argument 0 -/

/-- C10: the line `> out.txt` reaches `executeCommand` as a non-empty, non-builtin
token list, `handleRedirection` empties it and `execvp` is called with a null
`argv[0]`; the line `ls |` followed by a carriage return gives `executePipeline` an
empty second segment, whose child calls `execvp` with a null `argv[0]`. -/
theorem execvp_null_program :
    mainDispatch "> out.txt" = Dispatch.command [">", "out.txt"] false ∧
      ">" ∉ builtinNames ∧
      execvpCalls (executeCommand inChildNoExec 1 initialState [">", "out.txt"] false) =
        [(none, [])] ∧
      mainDispatch "ls |\r" = Dispatch.pipeline [["ls"], []] ∧
      pipeExecvpCalls (executePipeline (inPipeChildNoExec 1) [["ls"], []]) = [(none, [])] := by
  decide


/-! ## Background registration -/

/-- C4, as stated, fails: after `sleep 5` is dispatched in the background the new
job's command field is `sleep`, the first token, not the command text `sleep 5`. -/
theorem background_job_command_is_first_token :
    executeCommand allSucceed 1 initialState ["sleep", "5"] true =
        some (Outcome.returned
          ⟨["sleep 5"], [(1, ⟨4242, "sleep", true⟩)], 2, "sleep 5"⟩) ∧
      cmdLineLoop "" 0 ["sleep", "5"] = "sleep 5" ∧
      (⟨4242, "sleep", true⟩ : Job).command ≠ cmdLineLoop "" 0 ["sleep", "5"] := by
  decide

/-- C4, amended: for a non-builtin command, from a state whose job ids are all
below `jobCounter`: dispatched in the background with `fork` returning `p > 0`,
`executeCommand` returns with the previous table plus exactly one entry, keyed by
the previous `jobCounter`, with process id `p`, state running and the first token
as command field; when `fork` fails, or the command runs in the foreground, it
returns with the table unchanged. -/
theorem executeCommand_job_table (env : Env) (fuel : Nat) (st : ShellState) (cmd : String)
    (rest : List String) (hcmd : cmd ∉ builtinNames)
    (hinv : ∀ k ∈ jobKeys st.jobs, k < st.jobCounter) :
    (0 < env.forkRes →
        ∃ st2, executeCommand env (fuel + 1) st (cmd :: rest) true = some (Outcome.returned st2) ∧
          st2.jobs = st.jobs ++ [(st.jobCounter, ⟨env.forkRes, cmd, true⟩)]) ∧
      (env.forkRes < 0 → ∀ bg,
        ∃ st2, executeCommand env (fuel + 1) st (cmd :: rest) bg = some (Outcome.returned st2) ∧
          st2.jobs = st.jobs) ∧
      (0 < env.forkRes →
        ∃ st2, executeCommand env (fuel + 1) st (cmd :: rest) false = some (Outcome.returned st2) ∧
          st2.jobs = st.jobs) := by
  refine ⟨?_, ?_, ?_⟩
  · intro hp
    refine ⟨{ recordCommand st (cmd :: rest) with
        jobs := jobsAssign st.jobs st.jobCounter ⟨env.forkRes, cmd, true⟩
        jobCounter := wrapInt32 (st.jobCounter + 1) }, ?_, ?_⟩
    · rw [executeCommand_external env fuel st cmd rest true hcmd, if_neg (by omega), if_pos hp,
        if_pos rfl]
    · exact jobsAssign_append _ _ _ hinv
  · intro hp bg
    refine ⟨recordCommand st (cmd :: rest), ?_, rfl⟩
    rw [executeCommand_external env fuel st cmd rest bg hcmd, if_neg (by omega),
      if_neg (by omega)]
  · intro hp
    refine ⟨recordCommand st (cmd :: rest), ?_, rfl⟩
    rw [executeCommand_external env fuel st cmd rest false hcmd, if_neg (by omega), if_pos hp]
    simp

/-- Witness for C4 amended: `sleep 5` after one earlier background job. -/
theorem executeCommand_job_table_witness :
    (∃ st2, executeCommand allSucceed 1 ⟨[], [(1, ⟨77, "cat", true⟩)], 2, ""⟩ ["sleep", "5"] true =
          some (Outcome.returned st2) ∧
        st2.jobs = [(1, ⟨77, "cat", true⟩)] ++ [(2, ⟨4242, "sleep", true⟩)]) ∧
      (∃ st2, executeCommand allSucceed 1 ⟨[], [(1, ⟨77, "cat", true⟩)], 2, ""⟩ ["sleep", "5"] false =
          some (Outcome.returned st2) ∧
        st2.jobs = [(1, ⟨77, "cat", true⟩)]) :=
  have h := executeCommand_job_table allSucceed 0 ⟨[], [(1, ⟨77, "cat", true⟩)], 2, ""⟩
    "sleep" ["5"] (by decide) (by decide)
  ⟨h.1 (by decide), h.2.2 (by decide)⟩

/-! ## Bringing a job to the foreground -/

/-- C5, as stated, fails: with job 1 in the table and `waitpid` failing (return
value `-1`), `bringToForeground(1)` leaves the table empty. -/
theorem foreground_removes_after_failed_wait :
    jobsFind (⟨[], [(1, ⟨4242, "sleep", true⟩)], 2, ""⟩ : ShellState).jobs 1 =
        some ⟨4242, "sleep", true⟩ ∧
      ({ allSucceed with waitpidRes := -1 } : Env).waitpidRes = -1 ∧
      (bringToForeground { allSucceed with waitpidRes := -1 }
        ⟨[], [(1, ⟨4242, "sleep", true⟩)], 2, ""⟩ 1).jobs = [] := by
  decide

/-- C5, amended: for an id in the table, `bringToForeground(id)` removes the entry
whatever `kill` and `waitpid` return, and changes nothing else; for an id not in
the table, the state is unchanged. -/
theorem bringToForeground_table (env : Env) (st : ShellState) (id : Int) :
    (jobsFind st.jobs id = none → bringToForeground env st id = st) ∧
      (jobsFind st.jobs id ≠ none →
        bringToForeground env st id = { st with jobs := jobsErase st.jobs id } ∧
          jobsFind (bringToForeground env st id).jobs id = none) := by
  refine ⟨?_, ?_⟩
  · intro h
    simp [bringToForeground, h]
  · intro h
    obtain ⟨j, hj⟩ := Option.ne_none_iff_exists'.mp h
    have hb : bringToForeground env st id = { st with jobs := jobsErase st.jobs id } := by
      simp [bringToForeground, hj]
    refine ⟨hb, ?_⟩
    rw [hb]
    exact jobsFind_erase id st.jobs

/-- Witness for C5 amended: job 1 present, job 3 absent, `waitpid` failing. -/
theorem bringToForeground_table_witness :
    bringToForeground { allSucceed with waitpidRes := -1 }
        ⟨[], [(1, ⟨4242, "sleep", true⟩)], 2, ""⟩ 3 =
        ⟨[], [(1, ⟨4242, "sleep", true⟩)], 2, ""⟩ ∧
      jobsFind (bringToForeground { allSucceed with waitpidRes := -1 }
        ⟨[], [(1, ⟨4242, "sleep", true⟩)], 2, ""⟩ 1).jobs 1 = none :=
  ⟨(bringToForeground_table { allSucceed with waitpidRes := -1 }
      ⟨[], [(1, ⟨4242, "sleep", true⟩)], 2, ""⟩ 3).1 (by decide),
    ((bringToForeground_table { allSucceed with waitpidRes := -1 }
      ⟨[], [(1, ⟨4242, "sleep", true⟩)], 2, ""⟩ 1).2 (by decide)).2⟩

/-! ## Spawning and reaping in a pipeline -/

/-- C7, as stated, fails: in the pipeline `ls | wc`, when `fork` fails for segment
1, `executePipeline` returns in the shell having spawned one child and reaped
none. -/
theorem pipeline_fork_failure_not_reaped :
    executePipeline { allSucceed with pipeForkRes := fun i => if i = 1 then -1 else 5000 }
        [["ls"], ["wc"]] =
      some (PipeOutcome.parent
        [SysEvent.pipe 0 0, SysEvent.fork 5000, SysEvent.fork (-1),
          SysEvent.close 0, SysEvent.close 1]) ∧
      spawned [SysEvent.pipe 0 0, SysEvent.fork 5000, SysEvent.fork (-1),
          SysEvent.close 0, SysEvent.close 1] = 1 ∧
      reaped [SysEvent.pipe 0 0, SysEvent.fork 5000, SysEvent.fork (-1),
          SysEvent.close 0, SysEvent.close 1] = 0 := by
  decide

/-- C7, amended: for a pipeline of `n ≥ 1` segments, `executePipeline` returns in
the shell in each of these cases.  When every `pipe` and `fork` succeeds it has
allocated `n - 1` pipes, spawned `n` processes and reaped `n`, and its last calls
are the close of every pipe descriptor followed by `n` calls of `wait`.  When the
`pipe` call of index `c` is the first to fail it has spawned none, closed nothing
and reaped none.  When the `fork` of segment `c` is the first to fail it has
spawned `c` children; its calls after the failed `fork` are exactly the close of
every pipe descriptor, slots `0` to `2 * (n - 1) - 1`; and it has reaped none. -/
theorem executePipeline_counts (env : Env) (commands : List (List String))
    (hne : commands ≠ []) :
    ((∀ j, j < commands.length - 1 → env.pipeRes j ≠ -1) →
      (∀ j, j < commands.length → 0 < env.pipeForkRes j) →
      ∃ ev, executePipeline env commands = some (PipeOutcome.parent ev) ∧
        pipesAllocated ev = commands.length - 1 ∧ spawned ev = commands.length ∧
        reaped ev = commands.length ∧
        closedSlots ev = List.range (2 * (commands.length - 1)) ∧
        ∃ ev0, ev = ev0 ++ closeAll commands.length ++
          List.replicate commands.length SysEvent.wait) ∧
    (∀ c, c < commands.length - 1 → (∀ j, j < c → env.pipeRes j ≠ -1) →
      env.pipeRes c = -1 →
      ∃ ev, executePipeline env commands = some (PipeOutcome.parent ev) ∧
        pipesAllocated ev = c ∧ spawned ev = 0 ∧ reaped ev = 0 ∧ closedSlots ev = []) ∧
    (∀ c, c < commands.length → (∀ j, j < commands.length - 1 → env.pipeRes j ≠ -1) →
      (∀ j, j < c → 0 < env.pipeForkRes j) → env.pipeForkRes c < 0 →
      ∃ ev, executePipeline env commands = some (PipeOutcome.parent ev) ∧
        pipesAllocated ev = commands.length - 1 ∧ spawned ev = c ∧ reaped ev = 0 ∧
        closedSlots ev = List.range (2 * (commands.length - 1)) ∧
        ∃ ev0, ev = ev0 ++ SysEvent.fork (env.pipeForkRes c) :: closeAll commands.length) := by
  refine ⟨?_, ?_, ?_⟩
  · intro hpipe hfork
    refine ⟨_, executePipeline_all_ok env commands hne hpipe hfork, ?_⟩
    obtain ⟨p1, p2, p3⟩ := counts_pipeEvents env.pipeRes (commands.length - 1) 0
      (by simpa using hpipe)
    obtain ⟨f1, f2, f3⟩ := counts_forkEvents env.pipeForkRes commands.length 0
      (by simpa using hfork)
    obtain ⟨c1, c2, c3⟩ := counts_closeAll commands.length
    obtain ⟨w1, w2, w3⟩ := counts_waits commands.length
    refine ⟨?_, ?_, ?_, ?_, ⟨_, rfl⟩⟩
    · simp only [pipesAllocated_append, p1, f1, c1, w1]
      omega
    · simp only [spawned_append, p2, f2, c2, w2]
      omega
    · simp only [reaped_append, p3, f3, c3, w3]
      omega
    · simp only [closedSlots_append, closedSlots_pipeEvents, closedSlots_forkEvents,
        closedSlots_closeAll, closedSlots_waits, List.nil_append, List.append_nil]
  · intro c hc hpipe hfail
    refine ⟨_, executePipeline_pipe_fails env commands c hc hpipe hfail, ?_⟩
    obtain ⟨p1, p2, p3⟩ := counts_pipeEvents env.pipeRes c 0 (by simpa using hpipe)
    refine ⟨?_, ?_, ?_, ?_⟩
    · simp only [pipesAllocated_append, p1]
      simp [pipesAllocated, hfail]
    · simp only [spawned_append, p2]
      simp [spawned]
    · simp only [reaped_append, p3]
      simp [reaped]
    · simp only [closedSlots_append, closedSlots_pipeEvents]
      simp [closedSlots]
  · intro c hc hpipe hfork hfail
    refine ⟨_, executePipeline_fork_fails env commands c hc hpipe hfork hfail, ?_⟩
    obtain ⟨p1, p2, p3⟩ := counts_pipeEvents env.pipeRes (commands.length - 1) 0
      (by simpa using hpipe)
    obtain ⟨f1, f2, f3⟩ := counts_forkEvents env.pipeForkRes c 0 (by simpa using hfork)
    obtain ⟨c1, c2, c3⟩ := counts_closeAll commands.length
    have hneg : ¬ (0 < env.pipeForkRes c) := by omega
    refine ⟨?_, ?_, ?_, ?_,
      ⟨pipeEvents env.pipeRes 0 (commands.length - 1) ++ forkEvents env.pipeForkRes 0 c,
        by simp⟩⟩
    · simp only [pipesAllocated_append, p1, f1, c1]
      simp [pipesAllocated]
    · simp only [spawned_append, p2, f2, c2]
      simp [spawned, hneg]
    · simp only [reaped_append, p3, f3, c3]
      simp [reaped]
    · simp only [closedSlots_append, closedSlots_pipeEvents, closedSlots_forkEvents,
        closedSlots_closeAll, List.nil_append]
      simp [closedSlots]

/-- Witness for C7 amended: a three-segment pipeline with every call succeeding,
with the second `pipe` failing, and with the second `fork` failing. -/
theorem executePipeline_counts_witness :
    (∃ ev, executePipeline allSucceed [["ls"], ["sort"], ["wc"]] = some (PipeOutcome.parent ev) ∧
        pipesAllocated ev = 3 - 1 ∧ spawned ev = 3 ∧ reaped ev = 3 ∧
        closedSlots ev = List.range (2 * (3 - 1)) ∧
        ∃ ev0, ev = ev0 ++ closeAll 3 ++ List.replicate 3 SysEvent.wait) ∧
      (∃ ev, executePipeline { allSucceed with pipeRes := fun i => -i }
            [["ls"], ["sort"], ["wc"]] = some (PipeOutcome.parent ev) ∧
        pipesAllocated ev = 1 ∧ spawned ev = 0 ∧ reaped ev = 0 ∧ closedSlots ev = []) ∧
      (∃ ev, executePipeline { allSucceed with pipeForkRes := fun i => 2 - 2 * i - 1 }
            [["ls"], ["sort"], ["wc"]] = some (PipeOutcome.parent ev) ∧
        pipesAllocated ev = 3 - 1 ∧ spawned ev = 1 ∧ reaped ev = 0 ∧
        closedSlots ev = List.range (2 * (3 - 1)) ∧
        ∃ ev0, ev = ev0 ++ SysEvent.fork (-1) :: closeAll 3) :=
  ⟨(executePipeline_counts allSucceed [["ls"], ["sort"], ["wc"]] (by decide)).1
      (fun _ _ => by show (0 : Int) ≠ -1; decide)
      (fun j _ => by show (0 : Int) < 5000 + j; omega),
    (executePipeline_counts { allSucceed with pipeRes := fun i => -i }
      [["ls"], ["sort"], ["wc"]] (by decide)).2.1 1 (by decide)
      (fun j hj => by
        have h0 : j = 0 := by omega
        subst h0
        decide)
      (by decide),
    (executePipeline_counts { allSucceed with pipeForkRes := fun i => 2 - 2 * i - 1 }
      [["ls"], ["sort"], ["wc"]] (by decide)).2.2 1 (by decide)
      (fun _ _ => by show (0 : Int) ≠ -1; decide)
      (fun j hj => by
        have h0 : j = 0 := by omega
        subst h0
        decide)
      (by decide)⟩

/-! ## Repeating the last command -/

theorem executeCommand_repeat_none (env : Env) :
    ∀ (fuel : Nat) (st : ShellState) (bg : Bool), executeCommand env fuel st ["!!"] bg = none := by
  intro fuel
  induction fuel with
  | zero => intro st bg; rfl
  | succ fuel ih =>
    intro st bg
    have h1 : (recordCommand st ["!!"]).lastCommand = "!!" := by
      simp only [recordCommand]
      decide
    have h2 : parseInput "!!" = ["!!"] := by decide
    have h3 : ¬ ("!!" = "") := by decide
    rw [executeCommand]
    simp only [h1, h2, h3, if_false, if_true]
    exact ih _ false

/-- C9: dispatching `!!` never returns.  `executeCommand` copies the line `!!`
itself to `lastCommand` before it tests for the builtin, so the record consulted
is `!!`, its tokens are `!!` again, and the recursive call repeats this at every
depth: for every amount of fuel, from every state and in every environment, the
turn of the main loop on the line `!!` has no outcome. -/
theorem repeat_last_never_returns (env : Env) (fuel : Nat) (st : ShellState) :
    (recordCommand st ["!!"]).lastCommand = "!!" ∧ parseInput "!!" = ["!!"] ∧
      executeCommand env fuel st ["!!"] false = none ∧
      mainIteration env fuel st "!!" = none := by
  refine ⟨?_, by decide, executeCommand_repeat_none env fuel st false, ?_⟩
  · simp only [recordCommand]
    decide
  · have hd : mainDispatch "!!" = Dispatch.command ["!!"] false := by decide
    simp only [mainIteration, hd]
    exact executeCommand_repeat_none env fuel _ false


/-! ## Job ids along a session -/

theorem jobStep_record (st : ShellState) (args : List String) :
    JobStep st (recordCommand st args) :=
  Or.inl ⟨rfl, fun _ hk => hk⟩

theorem jobKeys_erase (id : Int) (jobs : List (Int × Job)) :
    ∀ k ∈ jobKeys (jobsErase jobs id), k ∈ jobKeys jobs := by
  intro k hk
  simp only [jobKeys, jobsErase, List.mem_map, List.mem_filter] at hk ⊢
  obtain ⟨e, ⟨he, _⟩, hek⟩ := hk
  exact ⟨e, he, hek⟩

theorem jobKeys_setRunning (id : Int) (jobs : List (Int × Job)) :
    jobKeys (jobsSetRunning jobs id) = jobKeys jobs := by
  induction jobs with
  | nil => rfl
  | cons e jobs ih =>
    simp only [jobKeys, jobsSetRunning, List.map_cons, List.cons.injEq] at ih ⊢
    refine ⟨?_, ih⟩
    split_ifs <;> rfl

theorem jobStep_foreground (env : Env) (st : ShellState) (args : List String) (id : Int) :
    JobStep st (bringToForeground env (recordCommand st args) id) := by
  unfold bringToForeground
  split
  · exact jobStep_record st args
  · exact Or.inl ⟨rfl, jobKeys_erase id st.jobs⟩

theorem jobStep_background (env : Env) (st : ShellState) (args : List String) (id : Int) :
    JobStep st (sendToBackground env (recordCommand st args) id) := by
  unfold sendToBackground
  split
  · exact jobStep_record st args
  · split_ifs
    · exact jobStep_record st args
    · refine Or.inl ⟨rfl, fun k hk => ?_⟩
      have hkeys := jobKeys_setRunning id st.jobs
      simp only [recordCommand] at hk
      rw [hkeys] at hk
      exact hk

theorem wrapInt32_succ (c : Int) (h1 : 1 ≤ c) (h2 : c < 2 ^ 31 - 1) :
    wrapInt32 (c + 1) = c + 1 := by
  unfold wrapInt32
  norm_num at h2 ⊢
  omega


theorem commandChild_not_returned (env : Env) (args : List String) (st2 : ShellState) :
    commandChild env args ≠ some (Outcome.returned st2) := by
  unfold commandChild
  split <;> simp

theorem jobStep_fg_branch (env : Env) (st : ShellState) (args : List String) (st2 : ShellState)
    (h : (if args.length < 2 then some (Outcome.returned (recordCommand st args))
        else
          match stoi (args.getD 1 "") with
          | none => some Outcome.aborted
          | some id => some (Outcome.returned (bringToForeground env (recordCommand st args) id))) =
      some (Outcome.returned st2)) : JobStep st st2 := by
  split_ifs at h
  · injection h with h
    injection h with h
    subst h
    exact jobStep_record st args
  · split at h
    · simp at h
    · injection h with h
      injection h with h
      subst h
      exact jobStep_foreground env st args _

theorem jobStep_bg_branch (env : Env) (st : ShellState) (args : List String) (st2 : ShellState)
    (h : (if args.length < 2 then some (Outcome.returned (recordCommand st args))
        else
          match stoi (args.getD 1 "") with
          | none => some Outcome.aborted
          | some id => some (Outcome.returned (sendToBackground env (recordCommand st args) id))) =
      some (Outcome.returned st2)) : JobStep st st2 := by
  split_ifs at h
  · injection h with h
    injection h with h
    subst h
    exact jobStep_record st args
  · split at h
    · simp at h
    · injection h with h
      injection h with h
      subst h
      exact jobStep_background env st args _

theorem executeCommand_jobStep (env : Env) :
    ∀ (fuel : Nat) (st : ShellState) (args : List String) (bg : Bool) (st2 : ShellState),
      executeCommand env fuel st args bg = some (Outcome.returned st2) →
      JobsBelowCounter st → st.jobCounter < 2 ^ 31 - 1 → JobStep st st2 := by
  intro fuel
  induction fuel with
  | zero => intro st args bg st2 h; simp [executeCommand] at h
  | succ fuel ih =>
    intro st args bg st2 h hinv hbound
    match args, h with
    | [], h =>
      simp only [executeCommand] at h
      injection h with h
      injection h with h
      subst h
      exact Or.inl ⟨rfl, fun _ hk => hk⟩
    | cmd :: rest, h =>
      by_cases hb : cmd ∈ builtinNames
      · rw [executeCommand] at h
        simp only [builtinNames, List.mem_cons, List.mem_singleton, List.not_mem_nil,
          or_false] at hb
        obtain ⟨k, hk⟩ : ∃ k, k = recordCommand st (cmd :: rest) := ⟨_, rfl⟩
        have hrec : ∀ x, some (Outcome.returned (recordCommand st (cmd :: rest))) =
            some (Outcome.returned x) → JobStep st x := by
          intro x hx
          injection hx with hx
          injection hx with hx
          subst hx
          exact jobStep_record st _
        rcases hb with rfl | rfl | rfl | rfl | rfl | rfl | rfl | rfl | rfl | rfl | rfl
        · simp only [if_true] at h
          exact hrec _ h
        · simp only [if_true, if_false] at h
          simp at h
        · simp only [if_true, if_false] at h
          exact hrec _ h
        · simp only [if_true, if_false] at h
          exact hrec _ h
        · rw [if_neg (by decide), if_neg (by decide), if_neg (by decide), if_neg (by decide),
            if_pos rfl] at h
          split_ifs at h
          · exact hrec _ h
          · exact ih (recordCommand st ("!!" :: rest)) _ false st2 h hinv hbound
        · simp only [if_true, if_false] at h
          exact hrec _ h
        · simp only [if_true, if_false] at h
          exact hrec _ h
        · simp only [if_true, if_false] at h
          exact hrec _ h
        · simp only [if_true, if_false] at h
          exact hrec _ h
        · simp only [if_true, if_false] at h
          exact jobStep_fg_branch env st _ st2 h
        · simp only [if_true, if_false] at h
          exact jobStep_bg_branch env st _ st2 h
      · rw [executeCommand_external env fuel st cmd rest bg hb] at h
        split_ifs at h with h1 h2 h3
        · exact absurd h (commandChild_not_returned env _ st2)
        · injection h with h
          injection h with h
          subst h
          refine Or.inr ⟨wrapInt32_succ _ hinv.2 hbound, _, jobsAssign_append _ _ _ hinv.1⟩
        · injection h with h
          injection h with h
          subst h
          exact jobStep_record st _
        · injection h with h
          injection h with h
          subst h
          exact jobStep_record st _


theorem mainIteration_jobStep (env : Env) (fuel : Nat) (st : ShellState) (line : String)
    (st2 : ShellState) (h : mainIteration env fuel st line = some (Outcome.returned st2))
    (hinv : JobsBelowCounter st) (hbound : st.jobCounter < 2 ^ 31 - 1) : JobStep st st2 := by
  unfold mainIteration at h
  split at h
  · injection h with h
    injection h with h
    subst h
    exact Or.inl ⟨rfl, fun _ hk => hk⟩
  · split_ifs at h
    · split at h
      · simp at h
      · injection h with h
        injection h with h
        subst h
        exact Or.inl ⟨rfl, fun _ hk => hk⟩
      · simp at h
    · injection h with h
      injection h with h
      subst h
      exact Or.inl ⟨rfl, fun _ hk => hk⟩
  · rename_i args background _
    have hstep := executeCommand_jobStep env fuel
      { st with historyList := st.historyList ++ [trimmedLine line],
                lastCommand := trimmedLine line } args background st2 h hinv hbound
    exact hstep

theorem jobStep_invariant (st st2 : ShellState) (h : JobStep st st2)
    (hinv : JobsBelowCounter st) : JobsBelowCounter st2 ∧ st.jobCounter ≤ st2.jobCounter ∧
      st2.jobCounter ≤ st.jobCounter + 1 := by
  rcases h with ⟨hc, hk⟩ | ⟨hc, j, hj⟩
  · refine ⟨⟨fun k hk2 => ?_, ?_⟩, ?_, ?_⟩
    · rw [hc]
      exact hinv.1 k (hk k hk2)
    · rw [hc]
      exact hinv.2
    · omega
    · omega
  · refine ⟨⟨fun k hk2 => ?_, ?_⟩, ?_, ?_⟩
    · rw [hc]
      rw [hj] at hk2
      simp only [jobKeys, List.map_append, List.map_cons, List.map_nil, List.mem_append,
        List.mem_singleton] at hk2
      rcases hk2 with hk2 | hk2
      · have := hinv.1 k hk2
        omega
      · omega
    · have := hinv.2
      omega
    · omega
    · omega

theorem jobStep_newJobIds (st st2 : ShellState) (h : JobStep st st2)
    (hinv : JobsBelowCounter st) :
    (st2.jobCounter = st.jobCounter ∧ newJobIds st st2 = []) ∨
      (st2.jobCounter = st.jobCounter + 1 ∧ newJobIds st st2 = [st.jobCounter]) := by
  rcases h with ⟨hc, hk⟩ | ⟨hc, j, hj⟩
  · refine Or.inl ⟨hc, ?_⟩
    simp only [newJobIds, List.filter_eq_nil_iff]
    intro k hk2
    simpa using hk k hk2
  · refine Or.inr ⟨hc, ?_⟩
    have hnot : st.jobCounter ∉ jobKeys st.jobs := fun hm => lt_irrefl _ (hinv.1 _ hm)
    have hall : (jobKeys st.jobs).filter (fun k => decide (k ∉ jobKeys st.jobs)) = [] := by
      simp [List.filter_eq_nil_iff]
    simp only [newJobIds, hj, jobKeys, List.map_append, List.map_cons, List.map_nil,
      List.filter_append]
    have hall2 := hall
    simp only [jobKeys] at hall2 hnot
    rw [hall2]
    simp [hnot]

theorem runSession_head (fuel : Nat) (st : ShellState) (ops : List (String × Env)) :
    ∃ t, runSession fuel st ops = st :: t := by
  cases ops with
  | nil => exact ⟨[], rfl⟩
  | cons op rest =>
    obtain ⟨line, env⟩ := op
    rw [runSession]
    split
    · exact ⟨_, rfl⟩
    · exact ⟨[], rfl⟩

theorem session_aux (fuel : Nat) :
    ∀ (ops : List (String × Env)) (st : ShellState), JobsBelowCounter st →
      st.jobCounter + ops.length ≤ 2 ^ 31 - 1 →
      (∀ s ∈ runSession fuel st ops, JobsBelowCounter s ∧ st.jobCounter ≤ s.jobCounter) ∧
        (counters (runSession fuel st ops)).Pairwise (· ≤ ·) ∧
        (runSession fuel st ops).Chain' JobStep ∧
        assignedIds (runSession fuel st ops) =
          (List.range (assignedIds (runSession fuel st ops)).length).map
            (fun (i : Nat) => st.jobCounter + (i : Int)) := by
  intro ops
  induction ops with
  | nil =>
    intro st hinv _
    simp [runSession, counters, assignedIds, hinv]
  | cons op rest ih =>
    intro st hinv hbound
    obtain ⟨line, env⟩ := op
    rw [runSession]
    split
    · rename_i st2 hm
      have hb : st.jobCounter < 2 ^ 31 - 1 := by
        simp only [List.length_cons] at hbound
        push_cast at hbound
        omega
      have hstep := mainIteration_jobStep env fuel st line st2 hm hinv hb
      obtain ⟨hinv2, hle, hle2⟩ := jobStep_invariant st st2 hstep hinv
      have hb2 : st2.jobCounter + rest.length ≤ 2 ^ 31 - 1 := by
        simp only [List.length_cons] at hbound
        push_cast at hbound
        omega
      obtain ⟨h1, h2, hch, h3⟩ := ih st2 hinv2 hb2
      obtain ⟨t, ht⟩ := runSession_head fuel st2 rest
      rw [ht] at h1 h2 hch h3 ⊢
      refine ⟨?_, ?_, List.chain'_cons.mpr ⟨hstep, hch⟩, ?_⟩
      · intro s hs
        rcases List.mem_cons.mp hs with rfl | hs
        · exact ⟨hinv, le_rfl⟩
        · exact ⟨(h1 s hs).1, le_trans hle (h1 s hs).2⟩
      · simp only [counters, List.map_cons, List.pairwise_cons] at h2 ⊢
        refine ⟨?_, h2⟩
        intro c hc
        rcases List.mem_cons.mp hc with rfl | hc
        · exact hle
        · obtain ⟨s, hs, rfl⟩ := List.mem_map.mp hc
          exact le_trans hle (h1 s (List.mem_cons_of_mem _ hs)).2
      · rw [assignedIds]
        rcases jobStep_newJobIds st st2 hstep hinv with ⟨hc, hn⟩ | ⟨hc, hn⟩
        · rw [hn, List.nil_append, ← hc]
          exact h3
        · rw [hn, List.singleton_append, List.length_cons, List.range_succ_eq_map,
            List.map_cons, List.map_map]
          congr 1
          · simp
          · conv_lhs => rw [h3]
            apply List.map_congr_left
            intro i _
            simp only [Function.comp, hc]
            push_cast
            omega
    · simp [counters, assignedIds, hinv]


/-- C3: along every session from the initial state (of fewer than `2 ^ 31 - 1`
lines, so that the `int` counter cannot overflow), in every state every key of the
job table is strictly below `jobCounter`; `jobCounter` never decreases; every turn
either adds no job id and keeps `jobCounter`, or adds one entry under the id
`jobCounter` and increments it; and the job ids assigned, in order, are
`1, 2, 3, ...`: the first is 1, they strictly increase and none is assigned twice,
also after `fg` removed earlier jobs. -/
theorem session_job_ids (fuel : Nat) (ops : List (String × Env))
    (hlen : ops.length < 2 ^ 31 - 1) :
    (∀ st ∈ runSession fuel initialState ops, ∀ k ∈ jobKeys st.jobs, k < st.jobCounter) ∧
      (counters (runSession fuel initialState ops)).Pairwise (· ≤ ·) ∧
      (runSession fuel initialState ops).Chain' JobStep ∧
      assignedIds (runSession fuel initialState ops) =
        (List.range (assignedIds (runSession fuel initialState ops)).length).map
          (fun (i : Nat) => (1 : Int) + (i : Int)) := by
  have hinit : JobsBelowCounter initialState := by
    refine ⟨fun k hk => ?_, le_rfl⟩
    simp [initialState, jobKeys] at hk
  have hb : initialState.jobCounter + (ops.length : Int) ≤ 2 ^ 31 - 1 := by
    have h1 : initialState.jobCounter = 1 := rfl
    rw [h1]
    norm_num at hlen ⊢
    omega
  obtain ⟨h1, h2, hch, h3⟩ := session_aux fuel ops initialState hinit hb
  exact ⟨fun st hst => (h1 st hst).1.1, h2, hch, h3⟩

/-- Witness for C3: in the sample session the ids assigned are 1, 2, 3, and id 1
is not reused after `fg 1` removed its job. -/
theorem session_job_ids_witness :
    ((∀ st ∈ runSession 1 initialState sampleSession, ∀ k ∈ jobKeys st.jobs, k < st.jobCounter) ∧
      (counters (runSession 1 initialState sampleSession)).Pairwise (· ≤ ·) ∧
      (runSession 1 initialState sampleSession).Chain' JobStep ∧
      assignedIds (runSession 1 initialState sampleSession) =
        (List.range (assignedIds (runSession 1 initialState sampleSession)).length).map
          (fun (i : Nat) => (1 : Int) + (i : Int))) ∧
      assignedIds (runSession 1 initialState sampleSession) = [1, 2, 3] ∧
      (runSession 1 initialState sampleSession).map (fun st => jobKeys st.jobs) =
        [[], [1], [1], [1, 2], [2], [2, 3], [2, 3]] ∧
      counters (runSession 1 initialState sampleSession) = [1, 2, 2, 3, 3, 4, 4] :=
  ⟨session_job_ids 1 sampleSession (by decide), by decide, by decide, by decide⟩


/-! ## Overflow of the job counter -/

theorem background_launch_step (st : ShellState) :
    mainIteration allSucceed 1 st "sleep 5 &" =
      some (Outcome.returned
        { historyList := st.historyList ++ ["sleep 5 &"] ++ ["sleep 5"]
          jobs := jobsAssign st.jobs st.jobCounter ⟨4242, "sleep", true⟩
          jobCounter := wrapInt32 (st.jobCounter + 1)
          lastCommand := "sleep 5" }) := by
  have hd : mainDispatch "sleep 5 &" = Dispatch.command ["sleep", "5"] true := by decide
  have ht : trimmedLine "sleep 5 &" = "sleep 5 &" := by decide
  have hc : cmdLineLoop "" 0 ["sleep", "5"] = "sleep 5" := by decide
  have hb : "sleep" ∉ builtinNames := by decide
  have hf0 : ¬ (allSucceed.forkRes = 0) := by decide
  have hf1 : 0 < allSucceed.forkRes := by decide
  simp only [mainIteration, hd]
  rw [executeCommand_external allSucceed 0 _ "sleep" ["5"] true hb, if_neg hf0, if_pos hf1,
    if_pos rfl]
  simp only [recordCommand, hc, ht]
  rfl

theorem overflow_aux :
    ∀ (n : Nat) (st : ShellState), JobsBelowCounter st →
      st.jobCounter + (n : Int) = 2147483647 →
      ∃ s ∈ runSession 1 st (List.replicate (n + 1) ("sleep 5 &", allSucceed)),
        s.jobCounter = -2147483648 ∧ (2147483647 : Int) ∈ jobKeys s.jobs := by
  intro n
  induction n with
  | zero =>
    intro st hinv hc
    have hc2 : st.jobCounter = 2147483647 := by simpa using hc
    refine ⟨{ historyList := st.historyList ++ ["sleep 5 &"] ++ ["sleep 5"]
              jobs := jobsAssign st.jobs st.jobCounter ⟨4242, "sleep", true⟩
              jobCounter := wrapInt32 (st.jobCounter + 1)
              lastCommand := "sleep 5" }, ?_, ?_, ?_⟩
    · simp only [List.replicate, runSession, background_launch_step]
      exact List.mem_cons_of_mem _ (List.mem_singleton.mpr rfl)
    · show wrapInt32 (st.jobCounter + 1) = -2147483648
      rw [hc2]
      decide
    · show (2147483647 : Int) ∈ jobKeys (jobsAssign st.jobs st.jobCounter ⟨4242, "sleep", true⟩)
      rw [jobsAssign_append _ _ _ hinv.1, hc2]
      simp [jobKeys]
  | succ n ih =>
    intro st hinv hc
    have hlt : st.jobCounter < 2 ^ 31 - 1 := by
      push_cast at hc
      norm_num
      omega
    have hw := wrapInt32_succ st.jobCounter hinv.2 hlt
    have hstep : JobStep st
        { historyList := st.historyList ++ ["sleep 5 &"] ++ ["sleep 5"]
          jobs := jobsAssign st.jobs st.jobCounter ⟨4242, "sleep", true⟩
          jobCounter := wrapInt32 (st.jobCounter + 1)
          lastCommand := "sleep 5" } :=
      Or.inr ⟨hw, _, jobsAssign_append _ _ _ hinv.1⟩
    obtain ⟨hinv2, _, _⟩ := jobStep_invariant _ _ hstep hinv
    obtain ⟨s, hs, h1, h2⟩ := ih _ hinv2 (by
      show wrapInt32 (st.jobCounter + 1) + (n : Int) = 2147483647
      rw [hw]
      push_cast at hc
      omega)
    refine ⟨s, ?_, h1, h2⟩
    rw [List.replicate_succ, runSession, background_launch_step]
    exact List.mem_cons_of_mem _ hs

/-- C3, as stated, fails: in the session of 2147483647 lines `sleep 5 &` from the
initial state, with every `fork` succeeding, the last launch stores its job under
the id 2147483647 and the increment wraps `jobCounter` to -2147483648: a key of
the table is not below `jobCounter`, and `jobCounter` has decreased. -/
theorem job_counter_overflow :
    ∃ st ∈ runSession 1 initialState (List.replicate 2147483647 ("sleep 5 &", allSucceed)),
      st.jobCounter = -2147483648 ∧ (2147483647 : Int) ∈ jobKeys st.jobs ∧
      (∃ k ∈ jobKeys st.jobs, ¬ (k < st.jobCounter)) ∧
      st.jobCounter < initialState.jobCounter := by
  have hinit : JobsBelowCounter initialState := by
    refine ⟨fun k hk => ?_, le_rfl⟩
    simp [initialState, jobKeys] at hk
  obtain ⟨s, hs, h1, h2⟩ := overflow_aux 2147483646 initialState hinit (by decide)
  refine ⟨s, hs, h1, h2, ⟨2147483647, h2, ?_⟩, ?_⟩
  · rw [h1]
    decide
  · rw [h1]
    decide

end CustomShell
